import Mathlib

/-!
Shallow embedding of the point-cloud loader `src/src/loaders/PCDLoader.js`
(the `parse` method and its inner `parseHeader`), over exact arithmetic.

Modelling granularity: the regex extraction phase of `parseHeader`
(lines 58-66 of the source) is abstracted into a `RawHeader` record whose
fields hold the already-extracted values (`none` = the regex matched
nothing, i.e. the JS value stayed `null`); the "evaluate" phase
(lines 70-147) and the whole payload decode are embedded faithfully.
The model assumes a FIELDS line is present (headers without one crash the
JS code in the COUNT-default loop) and, where the JS code would read
`size[i]` past the end of the SIZE list (yielding `undefined` and NaN
propagation), the model reads 0; every theorem below that touches SIZE
carries the well-formedness hypothesis that SIZE matches FIELDS in length,
so this corner is outside all statements.

Float values: a finite IEEE-754 binary32 number times 2^149 is an integer,
so a decoded float32 is represented exactly as a sign and a natural-number
magnitude (`value = (-1)^neg * mag / 2^149`), with infinities and NaN as
separate constructors. Comparisons against the literals `0.3` / `-0.3` of
the source are modelled as exact comparisons with 3/10: no float32 value
lies between the double nearest to 0.3 (which the JS comparison uses) and
3/10 itself, so the classification agrees with the JS one on every float32
input, and JS NaN comparisons (always false) are modelled explicitly.
-/

namespace PCD

/-- IEEE-754 binary32 value as read by `DataView.getFloat32`: exact value
`(-1)^neg * mag / 2^149` for finite numbers. -/
inductive F32 where
  | finite (neg : Bool) (mag : ℕ)
  | inf (neg : Bool)
  | nan
deriving DecidableEq

/-- Decode a 32-bit word into the float32 it encodes (exact semantics of
`DataView.getFloat32` once the bytes are assembled into a word). -/
def f32OfWord (w : ℕ) : F32 :=
  let sign : ℕ := w / 2 ^ 31
  let ex : ℕ := (w / 2 ^ 23) % 2 ^ 8
  let mant : ℕ := w % 2 ^ 23
  if ex = 255 then
    if mant = 0 then .inf (sign = 1) else .nan
  else if ex = 0 then .finite (sign = 1) mant
  else .finite (sign = 1) ((2 ^ 23 + mant) * 2 ^ (ex - 1))

/-- Assemble four payload bytes (in address order) into a 32-bit word,
little- or big-endian, as `DataView.getFloat32(_, littleEndian)` does. -/
def wordOfBytes (le : Bool) (b0 b1 b2 b3 : ℕ) : ℕ :=
  if le then b0 + b1 * 2 ^ 8 + b2 * 2 ^ 16 + b3 * 2 ^ 24
  else b3 + b2 * 2 ^ 8 + b1 * 2 ^ 16 + b0 * 2 ^ 24

/-- The exact rational value of a finite float32 given by sign and
2^149-scaled magnitude. -/
def f32Val (neg : Bool) (mag : ℕ) : ℚ :=
  (if neg then -(mag : ℚ) else (mag : ℚ)) / 2 ^ 149

/-- JavaScript `<` between a float32 and the rational p/q (q > 0),
by exact cross-multiplication; false on NaN, as in JS. -/
def F32.ltq : F32 → ℤ → ℕ → Bool
  | .nan, _, _ => false
  | .inf neg, _, _ => neg
  | .finite neg mag, p, q => (if neg then -(mag : ℤ) else (mag : ℤ)) * q < p * 2 ^ 149

/-- JavaScript `>` between a float32 and the rational p/q (q > 0); false on
NaN, as in JS. -/
def F32.gtq : F32 → ℤ → ℕ → Bool
  | .nan, _, _ => false
  | .inf neg, _, _ => !neg
  | .finite neg mag, p, q => p * 2 ^ 149 < (if neg then -(mag : ℤ) else (mag : ℤ)) * q

-- sanity checks for the decoder (float32 5.0 is 0x40A00000, 1.0 is 0x3F800000)
example : f32OfWord 0x40A00000 = .finite false (5 * 2 ^ 149) := by decide
example : f32OfWord 0 = .finite false 0 := by decide
example : f32OfWord 0x3F800000 = .finite false (2 ^ 149) := by decide

/-- Result of the regex extraction phase of `parseHeader` (source lines
58-66): each optional header line either matched (`some`, holding the value
the JS code then parses out of the capture) or stayed `null` (`none`).
A FIELDS line is assumed present (see file comment). -/
structure RawHeader where
  data : String
  fields : List String
  size : Option (List ℕ)
  count : Option (List ℕ)
  width : Option ℕ
  height : Option ℕ
  points : Option ℕ

/-- The evaluated header produced by `parseHeader` (source lines 44-147). -/
structure PCDHeader where
  data : String
  fields : List String
  count : List ℕ
  points : ℕ
  offset : List (String × ℕ)
  rowSize : ℕ

/-- The offset-building loop of `parseHeader` (source lines 124-145):
walks `fields` with a running index and byte accumulator `sizeSum`;
ascii mode records the column index, binary mode records `sizeSum` and
then adds the field's SIZE entry.  Returns the assignment list in loop
order together with the final `sizeSum` (= `rowSize`). -/
def mkOffsets (isAscii : Bool) : List String → List ℕ → ℕ → ℕ → List (String × ℕ) × ℕ
  | [], _, _, sizeSum => ([], sizeSum)
  | f :: fs, sizes, i, sizeSum =>
    if isAscii then
      let rest := mkOffsets isAscii fs sizes (i + 1) sizeSum
      ((f, i) :: rest.1, rest.2)
    else
      let rest := mkOffsets isAscii fs sizes.tail (i + 1) (sizeSum + sizes.headD 0)
      ((f, sizeSum) :: rest.1, rest.2)

/-- Lookup in the offset map. JS assignment overwrites, so the *last*
assignment to a field name wins. -/
def offsetOf (l : List (String × ℕ)) (k : String) : Option ℕ :=
  match l with
  | [] => none
  | (f, v) :: rest =>
    match offsetOf rest k with
    | some r => some r
    | none => if f = k then some v else none

/-- The "evaluate" phase of `parseHeader` (source lines 70-147): derive
`points` from WIDTH*HEIGHT when POINTS is absent (JS `null` coerces to 0
in multiplication), default COUNT to one 1 per field, and build the
offset map and `rowSize`. -/
def parseHeader (raw : RawHeader) : PCDHeader :=
  let points : ℕ :=
    match raw.points with
    | some p => p
    | none => raw.width.getD 0 * raw.height.getD 0
  let count : List ℕ :=
    match raw.count with
    | some c => c
    | none => List.replicate raw.fields.length 1
  let off := mkOffsets (raw.data = "ascii") raw.fields (raw.size.getD []) 0 0
  { data := raw.data, fields := raw.fields, count := count, points := points,
    offset := off.1, rowSize := off.2 }

/-- The six accumulator arrays of `parse` (source lines 159-164): group 1
is the above-floor ("_no_floor") output, group 2 the near-floor ("_floor")
output. Colors hold the exact values `byte/255` pushed by the source. -/
structure Groups where
  position1 : List F32
  normal1 : List F32
  color1 : List ℚ
  position2 : List F32
  normal2 : List F32
  color2 : List ℚ
deriving DecidableEq

def emptyGroups : Groups := ⟨[], [], [], [], [], []⟩

/-- Model of `DataView.getUint8` on the payload: in-bounds byte or failure
(a JS `RangeError`). -/
def getU8 (payload : List ℕ) (i : ℕ) : Option ℕ := payload.get? i

/-- Model of `DataView.getFloat32(i, le)` on the payload: reads the four bytes at
`i..i+3` (failing like JS does when any is out of range) and decodes. -/
def getF32 (le : Bool) (payload : List ℕ) (i : ℕ) : Option F32 :=
  match payload.get? i, payload.get? (i + 1), payload.get? (i + 2), payload.get? (i + 3) with
  | some b0, some b1, some b2, some b3 => some (f32OfWord (wordOfBytes le b0 b1 b2 b3))
  | _, _, _, _ => none

/-- Read index for `row + offset[f]`: when the field is absent, JS computes
`row + undefined = NaN` and `DataView`'s ToIndex maps NaN to 0, so the read
happens at byte 0. -/
def idxOf (row : ℕ) : Option ℕ → ℕ
  | some v => row + v
  | none => 0

/-- The floor test of the source (lines 230-235) on one float32 z:
`z < -0.3 || z > 0.3` makes the point non-floor, anything else floor. -/
def classifyFloor (z : F32) : Bool :=
  if z.ltq (-3) 10 || z.gtq 3 10 then false else true

/-- The classification step (source lines 227-236): `isFloor` starts
false; when an x field exists the z coordinate is read and tested. -/
def classify (le : Bool) (payload : List ℕ) (off : List (String × ℕ)) (row : ℕ) :
    Option Bool :=
  match offsetOf off "x" with
  | none => some false
  | some _ =>
    match getF32 le payload (idxOf row (offsetOf off "z")) with
    | none => none
    | some z => some (classifyFloor z)

/-- Position pushes (source lines 239-251): both branches perform the same
three reads, routed to group 2 when floor, group 1 otherwise. -/
def pushPos (le : Bool) (payload : List ℕ) (off : List (String × ℕ)) (row : ℕ)
    (isFloor : Bool) (g : Groups) : Option Groups :=
  match offsetOf off "x" with
  | none => some g
  | some vx =>
    match getF32 le payload (row + vx),
          getF32 le payload (idxOf row (offsetOf off "y")),
          getF32 le payload (idxOf row (offsetOf off "z")) with
    | some px, some py, some pz =>
      some (if isFloor then { g with position2 := g.position2 ++ [px, py, pz] }
            else { g with position1 := g.position1 ++ [px, py, pz] })
    | _, _, _ => none

/-- Packed-rgb pushes (source lines 253-264): three single bytes at fixed
positions `offset.rgb + 0/1/2`, each normalized by 255. -/
def pushRgb (payload : List ℕ) (off : List (String × ℕ)) (row : ℕ)
    (isFloor : Bool) (g : Groups) : Option Groups :=
  match offsetOf off "rgb" with
  | none => some g
  | some vr =>
    match getU8 payload (row + vr + 0), getU8 payload (row + vr + 1),
          getU8 payload (row + vr + 2) with
    | some c0, some c1, some c2 =>
      let cs : List ℚ := [(c0 : ℚ) / 255, (c1 : ℚ) / 255, (c2 : ℚ) / 255]
      some (if isFloor then { g with color2 := g.color2 ++ cs }
            else { g with color1 := g.color1 ++ cs })
    | _, _, _ => none

/-- Intensity pushes (source lines 266-277): one byte at
`offset.intensity + 0`, broadcast into all three channels. -/
def pushIntensity (payload : List ℕ) (off : List (String × ℕ)) (row : ℕ)
    (isFloor : Bool) (g : Groups) : Option Groups :=
  match offsetOf off "intensity" with
  | none => some g
  | some vi =>
    match getU8 payload (row + vi + 0) with
    | some c0 =>
      let cs : List ℚ := [(c0 : ℚ) / 255, (c0 : ℚ) / 255, (c0 : ℚ) / 255]
      some (if isFloor then { g with color2 := g.color2 ++ cs }
            else { g with color1 := g.color1 ++ cs })
    | none => none

/-- Normal pushes (source lines 279-290): three float32 reads. -/
def pushNormal (le : Bool) (payload : List ℕ) (off : List (String × ℕ)) (row : ℕ)
    (isFloor : Bool) (g : Groups) : Option Groups :=
  match offsetOf off "normal_x" with
  | none => some g
  | some vn =>
    match getF32 le payload (row + vn),
          getF32 le payload (idxOf row (offsetOf off "normal_y")),
          getF32 le payload (idxOf row (offsetOf off "normal_z")) with
    | some nx, some ny, some nz =>
      some (if isFloor then { g with normal2 := g.normal2 ++ [nx, ny, nz] }
            else { g with normal1 := g.normal1 ++ [nx, ny, nz] })
    | _, _, _ => none

/-- One iteration of the binary record loop (source lines 223-292). -/
def step (le : Bool) (payload : List ℕ) (off : List (String × ℕ)) (row : ℕ)
    (g : Groups) : Option Groups := do
  let isFloor ← classify le payload off row
  let g ← pushPos le payload off row isFloor g
  let g ← pushRgb payload off row isFloor g
  let g ← pushIntensity payload off row isFloor g
  pushNormal le payload off row isFloor g

/-- The binary record loop: `points` iterations, `row` advancing by
`rowSize` each time. -/
def binLoop (le : Bool) (payload : List ℕ) (off : List (String × ℕ)) (rowSize : ℕ) :
    ℕ → ℕ → Groups → Option Groups
  | 0, _, g => some g
  | fuel + 1, row, g =>
    match step le payload off row g with
    | none => none
    | some g2 => binLoop le payload off rowSize fuel (row + rowSize) g2

/-- How a `parse` call ends abnormally: the ascii branch's
`ReferenceError` (it pushes onto the undeclared `position`/`color`/
`normal`), the `binary_compressed` unsupported-encoding bail-out, or a
`RangeError` from an out-of-range `DataView` read. -/
inductive ParseErr where
  | refError
  | unsupportedEncoding
  | rangeError
deriving DecidableEq

/-- The body of `parse` after the header is evaluated (source lines
157-294), producing the six accumulator arrays.  The ascii branch
(lines 168-206) pushes onto identifiers `position`/`color`/`normal` that
are not declared anywhere: as the file is an ES module this throws a
`ReferenceError` on the first payload line (`split` always yields at least
one line) whenever any of x / rgb / normal_x is declared; with none of
them declared the loop does nothing.  An unrecognized DATA mode falls
through every branch and yields empty groups, as in the source. -/
def parse (le : Bool) (h : PCDHeader) (payload : List ℕ) : Except ParseErr Groups :=
  if h.data = "ascii" then
    if (offsetOf h.offset "x").isSome || (offsetOf h.offset "rgb").isSome
        || (offsetOf h.offset "normal_x").isSome then
      .error .refError
    else
      .ok emptyGroups
  else if h.data = "binary_compressed" then
    .error .unsupportedEncoding
  else if h.data = "binary" then
    match binLoop le payload h.offset h.rowSize h.points 0 emptyGroups with
    | some g => .ok g
    | none => .error .rangeError
  else
    .ok emptyGroups

/-- Material construction (source lines 314-334): vertex colors are
requested exactly when the group's color array is non-empty. -/
def vertexColors (c : List ℚ) : Bool := decide (0 < c.length)

/-- The combined multiset of color values over both groups, used to state
byte-order independence of the color data irrespective of routing. -/
def colorBag (g : Groups) : Multiset ℚ := (g.color1 : Multiset ℚ) + (g.color2 : Multiset ℚ)

end PCD

deriving instance DecidableEq for Except

set_option maxRecDepth 10000

namespace PCD

/-- Concrete binary header over fields x, y, z of size 4 each. -/
def xyzRaw (pts : ℕ) : RawHeader :=
  { data := "binary", fields := ["x", "y", "z"], size := some [4, 4, 4],
    count := none, width := none, height := none, points := some pts }

/-- Concrete binary header with a single packed-rgb field and one point. -/
def rgbRaw : RawHeader :=
  { data := "binary", fields := ["rgb"], size := some [4],
    count := none, width := none, height := none, points := some 1 }

/-- Concrete binary header over fields x, y, z, rgb (sizes 4), one point. -/
def xyzrgbRaw : RawHeader :=
  { data := "binary", fields := ["x", "y", "z", "rgb"], size := some [4, 4, 4, 4],
    count := none, width := none, height := none, points := some 1 }

/-- Concrete ascii header over fields x, y, z. -/
def asciiXyzRaw : RawHeader :=
  { data := "ascii", fields := ["x", "y", "z"], size := none,
    count := none, width := some 1, height := some 1, points := none }

/-- Float32 zero, as decoded from four zero bytes. -/
def f0 : F32 := .finite false 0

/-- Float32 5.0 (bit pattern 0x40A00000). -/
def f5 : F32 := .finite false (5 * 2 ^ 149)

/-! ### Canonical decomposition of one record step

Each push stage of `step` either fails (an out-of-range read) or appends a
fixed "delta" list — determined by the payload, offsets and row alone — to
one of the two groups, chosen by `isFloor`.  The `...Delta` functions
compute those lists; `applyDeltas` routes them.  `step_eq_canonical` below
proves `step` equal to this decomposition. -/

/-- The position triple a record contributes ([] when x is absent),
or `none` on a failed read. -/
def posDelta (le : Bool) (payload : List ℕ) (off : List (String × ℕ)) (row : ℕ) :
    Option (List F32) :=
  match offsetOf off "x" with
  | none => some []
  | some vx =>
    match getF32 le payload (row + vx),
          getF32 le payload (idxOf row (offsetOf off "y")),
          getF32 le payload (idxOf row (offsetOf off "z")) with
    | some px, some py, some pz => some [px, py, pz]
    | _, _, _ => none

/-- The packed-rgb color triple a record contributes ([] when rgb is
absent), or `none` on a failed read. -/
def rgbDelta (payload : List ℕ) (off : List (String × ℕ)) (row : ℕ) :
    Option (List ℚ) :=
  match offsetOf off "rgb" with
  | none => some []
  | some vr =>
    match getU8 payload (row + vr + 0), getU8 payload (row + vr + 1),
          getU8 payload (row + vr + 2) with
    | some c0, some c1, some c2 => some [(c0 : ℚ) / 255, (c1 : ℚ) / 255, (c2 : ℚ) / 255]
    | _, _, _ => none

/-- The broadcast intensity color triple a record contributes ([] when
intensity is absent), or `none` on a failed read. -/
def intensityDelta (payload : List ℕ) (off : List (String × ℕ)) (row : ℕ) :
    Option (List ℚ) :=
  match offsetOf off "intensity" with
  | none => some []
  | some vi =>
    match getU8 payload (row + vi + 0) with
    | some c0 => some [(c0 : ℚ) / 255, (c0 : ℚ) / 255, (c0 : ℚ) / 255]
    | none => none

/-- The normal triple a record contributes ([] when normal_x is absent),
or `none` on a failed read. -/
def normalDelta (le : Bool) (payload : List ℕ) (off : List (String × ℕ)) (row : ℕ) :
    Option (List F32) :=
  match offsetOf off "normal_x" with
  | none => some []
  | some vn =>
    match getF32 le payload (row + vn),
          getF32 le payload (idxOf row (offsetOf off "normal_y")),
          getF32 le payload (idxOf row (offsetOf off "normal_z")) with
    | some nx, some ny, some nz => some [nx, ny, nz]
    | _, _, _ => none

/-- Append a record's deltas to the floor group (`fl = true`) or the
above-floor group (`fl = false`), rgb colors before intensity colors. -/
def applyDeltas (fl : Bool) (dp : List F32) (dr di : List ℚ) (dn : List F32)
    (g : Groups) : Groups :=
  if fl then
    { g with position2 := g.position2 ++ dp, color2 := g.color2 ++ dr ++ di,
             normal2 := g.normal2 ++ dn }
  else
    { g with position1 := g.position1 ++ dp, color1 := g.color1 ++ dr ++ di,
             normal1 := g.normal1 ++ dn }

/-- All six array lengths are multiples of three. -/
def mod3 (g : Groups) : Prop :=
  g.position1.length % 3 = 0 ∧ g.normal1.length % 3 = 0 ∧ g.color1.length % 3 = 0 ∧
    g.position2.length % 3 = 0 ∧ g.normal2.length % 3 = 0 ∧ g.color2.length % 3 = 0

/-- The offset map `parseHeader` computes for the x/y/z header. -/
def xyzOff : List (String × ℕ) := [("x", 0), ("y", 4), ("z", 8)]

/-- Twelve zero bytes: one x/y/z record with x = y = z = 0.0. -/
def zZeroPayload : List ℕ := [0, 0, 0, 0, 0, 0, 0, 0, 0, 0, 0, 0]

/-- One x/y/z record with x = y = 0.0 and z = 5.0 in little-endian bytes. -/
def zFivePayload : List ℕ := [0, 0, 0, 0, 0, 0, 0, 0, 0, 0, 160, 64]

/-- One record for the rgb-only header: color bytes 10, 20, 30 (and an
unread fourth byte). -/
def c2Payload : List ℕ := [10, 20, 30, 40]

/-- One x/y/z/rgb record: z bytes decode to 5.0 little-endian but to a
tiny subnormal big-endian, so the two byte orders classify it to
different groups; rgb bytes 1, 2, 3. -/
def c10Payload : List ℕ := [0, 0, 0, 0, 0, 0, 0, 0, 0, 0, 160, 64, 1, 2, 3, 9]

/-- Binary header whose single field is never read by the decoder: a
truncated payload for it parses without error. -/
def dummyRaw : RawHeader :=
  { data := "binary", fields := ["dummy"], size := some [4], count := none,
    width := none, height := none, points := some 2 }

/-- Binary header with one field of size 4 and COUNT 2: the claimed
count-weighted stride would be 8, the code computes 4. -/
def countRaw : RawHeader :=
  { data := "binary", fields := ["x"], size := some [4], count := some [2],
    width := none, height := none, points := some 0 }

end PCD

namespace PCD

/-! ### Lemmas: the push stages in delta form -/

theorem pushPos_eq (le : Bool) (payload : List ℕ) (off : List (String × ℕ)) (row : ℕ)
    (fl : Bool) (g : Groups) :
    pushPos le payload off row fl g = (posDelta le payload off row).map
      (fun d => if fl then { g with position2 := g.position2 ++ d }
                else { g with position1 := g.position1 ++ d }) := by
  cases hx : offsetOf off "x" with
  | none => cases fl <;> simp [pushPos, posDelta, hx]
  | some vx =>
    cases h1 : getF32 le payload (row + vx) <;>
      cases h2 : getF32 le payload (idxOf row (offsetOf off "y")) <;>
        cases h3 : getF32 le payload (idxOf row (offsetOf off "z")) <;>
          simp [pushPos, posDelta, hx, h1, h2, h3]

theorem pushRgb_eq (payload : List ℕ) (off : List (String × ℕ)) (row : ℕ)
    (fl : Bool) (g : Groups) :
    pushRgb payload off row fl g = (rgbDelta payload off row).map
      (fun d => if fl then { g with color2 := g.color2 ++ d }
                else { g with color1 := g.color1 ++ d }) := by
  cases hr : offsetOf off "rgb" with
  | none => cases fl <;> simp [pushRgb, rgbDelta, hr]
  | some vr =>
    cases h1 : getU8 payload (row + vr) <;>
      cases h2 : getU8 payload (row + vr + 1) <;>
        cases h3 : getU8 payload (row + vr + 2) <;>
          simp [pushRgb, rgbDelta, hr, h1, h2, h3]

theorem pushIntensity_eq (payload : List ℕ) (off : List (String × ℕ)) (row : ℕ)
    (fl : Bool) (g : Groups) :
    pushIntensity payload off row fl g = (intensityDelta payload off row).map
      (fun d => if fl then { g with color2 := g.color2 ++ d }
                else { g with color1 := g.color1 ++ d }) := by
  cases hi : offsetOf off "intensity" with
  | none => cases fl <;> simp [pushIntensity, intensityDelta, hi]
  | some vi =>
    cases h1 : getU8 payload (row + vi) <;>
      simp [pushIntensity, intensityDelta, hi, h1]

theorem pushNormal_eq (le : Bool) (payload : List ℕ) (off : List (String × ℕ)) (row : ℕ)
    (fl : Bool) (g : Groups) :
    pushNormal le payload off row fl g = (normalDelta le payload off row).map
      (fun d => if fl then { g with normal2 := g.normal2 ++ d }
                else { g with normal1 := g.normal1 ++ d }) := by
  cases hn : offsetOf off "normal_x" with
  | none => cases fl <;> simp [pushNormal, normalDelta, hn]
  | some vn =>
    cases h1 : getF32 le payload (row + vn) <;>
      cases h2 : getF32 le payload (idxOf row (offsetOf off "normal_y")) <;>
        cases h3 : getF32 le payload (idxOf row (offsetOf off "normal_z")) <;>
          simp [pushNormal, normalDelta, hn, h1, h2, h3]

theorem step_eq_canonical (le : Bool) (payload : List ℕ) (off : List (String × ℕ))
    (row : ℕ) (g : Groups) :
    step le payload off row g =
      match classify le payload off row, posDelta le payload off row,
            rgbDelta payload off row, intensityDelta payload off row,
            normalDelta le payload off row with
      | some fl, some dp, some dr, some di, some dn => some (applyDeltas fl dp dr di dn g)
      | _, _, _, _, _ => none := by
  simp only [step, bind, Option.bind, pushPos_eq, pushRgb_eq, pushIntensity_eq, pushNormal_eq]
  cases classify le payload off row with
  | none => rfl
  | some fl =>
    cases posDelta le payload off row with
    | none => rfl
    | some dp =>
      cases rgbDelta payload off row with
      | none => cases fl <;> rfl
      | some dr =>
        cases intensityDelta payload off row with
        | none => cases fl <;> rfl
        | some di =>
          cases normalDelta le payload off row with
          | none => cases fl <;> rfl
          | some dn => cases fl <;> rfl

/-! ### Lemmas: absent fields, delta lengths, read bounds -/

theorem classify_noX (le : Bool) (payload : List ℕ) (off : List (String × ℕ)) (row : ℕ)
    (hx : offsetOf off "x" = none) : classify le payload off row = some false := by
  simp [classify, hx]

theorem posDelta_noX (le : Bool) (payload : List ℕ) (off : List (String × ℕ)) (row : ℕ)
    (hx : offsetOf off "x" = none) : posDelta le payload off row = some [] := by
  simp [posDelta, hx]

theorem rgbDelta_noRgb (payload : List ℕ) (off : List (String × ℕ)) (row : ℕ)
    (hr : offsetOf off "rgb" = none) : rgbDelta payload off row = some [] := by
  simp [rgbDelta, hr]

theorem intensityDelta_noIntensity (payload : List ℕ) (off : List (String × ℕ)) (row : ℕ)
    (hi : offsetOf off "intensity" = none) : intensityDelta payload off row = some [] := by
  simp [intensityDelta, hi]

theorem normalDelta_noNormalX (le : Bool) (payload : List ℕ) (off : List (String × ℕ))
    (row : ℕ) (hn : offsetOf off "normal_x" = none) :
    normalDelta le payload off row = some [] := by
  simp [normalDelta, hn]

theorem posDelta_mod3 (le : Bool) (payload : List ℕ) (off : List (String × ℕ)) (row : ℕ)
    (dp : List F32) (h : posDelta le payload off row = some dp) : dp.length % 3 = 0 := by
  cases hx : offsetOf off "x" with
  | none => simp [posDelta, hx] at h; subst h; simp
  | some vx =>
    cases h1 : getF32 le payload (row + vx) <;>
      cases h2 : getF32 le payload (idxOf row (offsetOf off "y")) <;>
        cases h3 : getF32 le payload (idxOf row (offsetOf off "z")) <;>
          simp [posDelta, hx, h1, h2, h3] at h <;> (subst h; simp)

theorem rgbDelta_mod3 (payload : List ℕ) (off : List (String × ℕ)) (row : ℕ)
    (dr : List ℚ) (h : rgbDelta payload off row = some dr) : dr.length % 3 = 0 := by
  cases hr : offsetOf off "rgb" with
  | none => simp [rgbDelta, hr] at h; subst h; simp
  | some vr =>
    cases h1 : getU8 payload (row + vr) <;>
      cases h2 : getU8 payload (row + vr + 1) <;>
        cases h3 : getU8 payload (row + vr + 2) <;>
          simp [rgbDelta, hr, h1, h2, h3] at h <;> (subst h; simp)

theorem intensityDelta_mod3 (payload : List ℕ) (off : List (String × ℕ)) (row : ℕ)
    (di : List ℚ) (h : intensityDelta payload off row = some di) : di.length % 3 = 0 := by
  cases hi : offsetOf off "intensity" with
  | none => simp [intensityDelta, hi] at h; subst h; simp
  | some vi =>
    cases h1 : getU8 payload (row + vi) <;>
      simp [intensityDelta, hi, h1] at h <;> (subst h; simp)

theorem normalDelta_mod3 (le : Bool) (payload : List ℕ) (off : List (String × ℕ))
    (row : ℕ) (dn : List F32) (h : normalDelta le payload off row = some dn) :
    dn.length % 3 = 0 := by
  cases hn : offsetOf off "normal_x" with
  | none => simp [normalDelta, hn] at h; subst h; simp
  | some vn =>
    cases h1 : getF32 le payload (row + vn) <;>
      cases h2 : getF32 le payload (idxOf row (offsetOf off "normal_y")) <;>
        cases h3 : getF32 le payload (idxOf row (offsetOf off "normal_z")) <;>
          simp [normalDelta, hn, h1, h2, h3] at h <;> (subst h; simp)

theorem getF32_isSome_iff (le : Bool) (p : List ℕ) (i : ℕ) :
    (getF32 le p i).isSome ↔ i + 4 ≤ p.length := by
  constructor
  · intro hs
    by_contra hlen
    push_neg at hlen
    have h3 : p[i + 3]? = none := List.getElem?_eq_none_iff.mpr (by omega)
    cases h0 : p[i]? <;> cases h1 : p[i + 1]? <;> cases h2 : p[i + 2]? <;>
      simp [getF32, List.get?_eq_getElem?, h0, h1, h2, h3] at hs
  · intro hlen
    have h0 := List.getElem?_eq_getElem (by omega : i < p.length)
    have h1 := List.getElem?_eq_getElem (by omega : i + 1 < p.length)
    have h2 := List.getElem?_eq_getElem (by omega : i + 2 < p.length)
    have h3 := List.getElem?_eq_getElem (by omega : i + 3 < p.length)
    simp [getF32, List.get?_eq_getElem?, h0, h1, h2, h3]

theorem getU8_isSome_iff (p : List ℕ) (i : ℕ) :
    (getU8 p i).isSome ↔ i + 1 ≤ p.length := by
  constructor
  · intro hs
    by_contra hlen
    push_neg at hlen
    have h0 : p[i]? = none := List.getElem?_eq_none_iff.mpr (by omega)
    simp [getU8, List.get?_eq_getElem?, h0] at hs
  · intro hlen
    have h0 := List.getElem?_eq_getElem (by omega : i < p.length)
    simp [getU8, List.get?_eq_getElem?, h0]

theorem classify_isSome (le : Bool) (payload : List ℕ) (off : List (String × ℕ))
    (row : ℕ) :
    (classify le payload off row).isSome ↔
      (match offsetOf off "x" with
       | none => True
       | some _ => idxOf row (offsetOf off "z") + 4 ≤ payload.length) := by
  cases hx : offsetOf off "x" with
  | none => simp [classify, hx]
  | some vx =>
    rw [← getF32_isSome_iff le payload (idxOf row (offsetOf off "z"))]
    cases hz : getF32 le payload (idxOf row (offsetOf off "z")) <;> simp [classify, hx, hz]

theorem posDelta_isSome (le : Bool) (payload : List ℕ) (off : List (String × ℕ))
    (row : ℕ) :
    (posDelta le payload off row).isSome ↔
      (match offsetOf off "x" with
       | none => True
       | some vx => row + vx + 4 ≤ payload.length ∧
           idxOf row (offsetOf off "y") + 4 ≤ payload.length ∧
           idxOf row (offsetOf off "z") + 4 ≤ payload.length) := by
  cases hx : offsetOf off "x" with
  | none => simp [posDelta, hx]
  | some vx =>
    cases h1 : getF32 le payload (row + vx) <;>
      cases h2 : getF32 le payload (idxOf row (offsetOf off "y")) <;>
        cases h3 : getF32 le payload (idxOf row (offsetOf off "z")) <;>
          simp [posDelta, hx, h1, h2, h3,
            ← getF32_isSome_iff le payload (row + vx),
            ← getF32_isSome_iff le payload (idxOf row (offsetOf off "y")),
            ← getF32_isSome_iff le payload (idxOf row (offsetOf off "z"))]

theorem normalDelta_isSome (le : Bool) (payload : List ℕ) (off : List (String × ℕ))
    (row : ℕ) :
    (normalDelta le payload off row).isSome ↔
      (match offsetOf off "normal_x" with
       | none => True
       | some vn => row + vn + 4 ≤ payload.length ∧
           idxOf row (offsetOf off "normal_y") + 4 ≤ payload.length ∧
           idxOf row (offsetOf off "normal_z") + 4 ≤ payload.length) := by
  cases hn : offsetOf off "normal_x" with
  | none => simp [normalDelta, hn]
  | some vn =>
    cases h1 : getF32 le payload (row + vn) <;>
      cases h2 : getF32 le payload (idxOf row (offsetOf off "normal_y")) <;>
        cases h3 : getF32 le payload (idxOf row (offsetOf off "normal_z")) <;>
          simp [normalDelta, hn, h1, h2, h3,
            ← getF32_isSome_iff le payload (row + vn),
            ← getF32_isSome_iff le payload (idxOf row (offsetOf off "normal_y")),
            ← getF32_isSome_iff le payload (idxOf row (offsetOf off "normal_z"))]

/-- Whether the z-classification read succeeds does not depend on the
byte-order flag. -/
theorem classify_none_congr (le le2 : Bool) (payload : List ℕ)
    (off : List (String × ℕ)) (row : ℕ) :
    classify le payload off row = none ↔ classify le2 payload off row = none := by
  rw [← Option.not_isSome_iff_eq_none, ← Option.not_isSome_iff_eq_none,
    classify_isSome, classify_isSome]

/-- Whether the position reads succeed does not depend on the byte-order
flag. -/
theorem posDelta_none_congr (le le2 : Bool) (payload : List ℕ)
    (off : List (String × ℕ)) (row : ℕ) :
    posDelta le payload off row = none ↔ posDelta le2 payload off row = none := by
  rw [← Option.not_isSome_iff_eq_none, ← Option.not_isSome_iff_eq_none,
    posDelta_isSome, posDelta_isSome]

/-- Whether the normal reads succeed does not depend on the byte-order
flag. -/
theorem normalDelta_none_congr (le le2 : Bool) (payload : List ℕ)
    (off : List (String × ℕ)) (row : ℕ) :
    normalDelta le payload off row = none ↔ normalDelta le2 payload off row = none := by
  rw [← Option.not_isSome_iff_eq_none, ← Option.not_isSome_iff_eq_none,
    normalDelta_isSome, normalDelta_isSome]

theorem step_isSome_iff (le : Bool) (payload : List ℕ) (off : List (String × ℕ))
    (row : ℕ) (g : Groups) :
    (step le payload off row g).isSome ↔
      ((classify le payload off row).isSome ∧ (posDelta le payload off row).isSome ∧
        (rgbDelta payload off row).isSome ∧ (intensityDelta payload off row).isSome ∧
        (normalDelta le payload off row).isSome) := by
  rw [step_eq_canonical]
  cases classify le payload off row <;> cases posDelta le payload off row <;>
    cases rgbDelta payload off row <;> cases intensityDelta payload off row <;>
      cases normalDelta le payload off row <;> simp

/-- A successful record step appends the record's deltas to the group
chosen by the classification. -/
theorem step_some_spec (le : Bool) (payload : List ℕ) (off : List (String × ℕ))
    (row : ℕ) (g g2 : Groups) (h : step le payload off row g = some g2) :
    ∃ fl dp dr di dn, classify le payload off row = some fl ∧
      posDelta le payload off row = some dp ∧ rgbDelta payload off row = some dr ∧
      intensityDelta payload off row = some di ∧ normalDelta le payload off row = some dn ∧
      g2 = applyDeltas fl dp dr di dn g := by
  rw [step_eq_canonical] at h
  cases hc : classify le payload off row with
  | none => rw [hc] at h; simp at h
  | some fl =>
  rw [hc] at h
  cases hp : posDelta le payload off row with
  | none => rw [hp] at h; simp at h
  | some dp =>
  rw [hp] at h
  cases hr : rgbDelta payload off row with
  | none => rw [hr] at h; simp at h
  | some dr =>
  rw [hr] at h
  cases hi : intensityDelta payload off row with
  | none => rw [hi] at h; simp at h
  | some di =>
  rw [hi] at h
  cases hn : normalDelta le payload off row with
  | none => rw [hn] at h; simp at h
  | some dn =>
  rw [hn] at h
  exact ⟨fl, dp, dr, di, dn, rfl, rfl, rfl, rfl, rfl, (Option.some.inj h).symm⟩

/-! ### Lemmas: loop invariants -/

theorem mod3_applyDeltas (fl : Bool) (dp : List F32) (dr di : List ℚ) (dn : List F32)
    (g : Groups) (hg : mod3 g) (hdp : dp.length % 3 = 0) (hdr : dr.length % 3 = 0)
    (hdi : di.length % 3 = 0) (hdn : dn.length % 3 = 0) :
    mod3 (applyDeltas fl dp dr di dn g) := by
  obtain ⟨a, b, c, d, e, f⟩ := hg
  cases fl <;> simp [applyDeltas, mod3, List.length_append] <;>
    refine ⟨?_, ?_, ?_, ?_⟩ <;> omega

theorem binLoop_mod3 (le : Bool) (payload : List ℕ) (off : List (String × ℕ)) (rs : ℕ) :
    ∀ (fuel row : ℕ) (g g2 : Groups), binLoop le payload off rs fuel row g = some g2 →
      mod3 g → mod3 g2 := by
  intro fuel
  induction fuel with
  | zero =>
    intro row g g2 h hg
    simp [binLoop] at h
    rwa [← h]
  | succ n ih =>
    intro row g g2 h hg
    simp only [binLoop] at h
    cases hs : step le payload off row g with
    | none => rw [hs] at h; simp at h
    | some gm =>
      rw [hs] at h
      obtain ⟨fl, dp, dr, di, dn, hc, hp, hr2, hi2, hn2, hgm⟩ :=
        step_some_spec le payload off row g gm hs
      refine ih (row + rs) gm g2 h ?_
      rw [hgm]
      exact mod3_applyDeltas fl dp dr di dn g hg
        (posDelta_mod3 le payload off row dp hp) (rgbDelta_mod3 payload off row dr hr2)
        (intensityDelta_mod3 payload off row di hi2) (normalDelta_mod3 le payload off row dn hn2)

theorem binLoop_noX (le : Bool) (payload : List ℕ) (off : List (String × ℕ)) (rs : ℕ)
    (hx : offsetOf off "x" = none) :
    ∀ (fuel row : ℕ) (g g2 : Groups), binLoop le payload off rs fuel row g = some g2 →
      g2.position1 = g.position1 ∧ g2.position2 = g.position2 ∧
        g2.color2 = g.color2 ∧ g2.normal2 = g.normal2 := by
  intro fuel
  induction fuel with
  | zero =>
    intro row g g2 h
    simp [binLoop] at h
    simp [← h]
  | succ n ih =>
    intro row g g2 h
    simp only [binLoop] at h
    cases hs : step le payload off row g with
    | none => rw [hs] at h; simp at h
    | some gm =>
      rw [hs] at h
      obtain ⟨fl, dp, dr, di, dn, hc, hp, -, -, -, hgm⟩ :=
        step_some_spec le payload off row g gm hs
      have hfl : fl = false := by
        have h2 := classify_noX le payload off row hx
        rw [hc] at h2
        exact Option.some.inj h2
      have hdp : dp = [] := by
        have h2 := posDelta_noX le payload off row hx
        rw [hp] at h2
        exact Option.some.inj h2
      subst hfl hdp
      obtain ⟨e1, e2, e3, e4⟩ := ih (row + rs) gm g2 h
      rw [hgm] at e1 e2 e3 e4
      simp only [applyDeltas, Bool.false_eq_true, if_false, List.append_nil] at e1 e2 e3 e4
      exact ⟨e1, e2, e3, e4⟩

theorem binLoop_noNormal (le : Bool) (payload : List ℕ) (off : List (String × ℕ)) (rs : ℕ)
    (hn : offsetOf off "normal_x" = none) :
    ∀ (fuel row : ℕ) (g g2 : Groups), binLoop le payload off rs fuel row g = some g2 →
      g2.normal1 = g.normal1 ∧ g2.normal2 = g.normal2 := by
  intro fuel
  induction fuel with
  | zero =>
    intro row g g2 h
    simp [binLoop] at h
    simp [← h]
  | succ n ih =>
    intro row g g2 h
    simp only [binLoop] at h
    cases hs : step le payload off row g with
    | none => rw [hs] at h; simp at h
    | some gm =>
      rw [hs] at h
      obtain ⟨fl, dp, dr, di, dn, hc, hp, -, -, hn2, hgm⟩ :=
        step_some_spec le payload off row g gm hs
      have hdn : dn = [] := by
        have h2 := normalDelta_noNormalX le payload off row hn
        rw [hn2] at h2
        exact Option.some.inj h2
      subst hdn
      obtain ⟨e1, e2⟩ := ih (row + rs) gm g2 h
      rw [hgm] at e1 e2
      cases fl <;> simp only [applyDeltas, Bool.false_eq_true, if_false, if_true,
        List.append_nil] at e1 e2 <;> exact ⟨e1, e2⟩

theorem binLoop_noColor (le : Bool) (payload : List ℕ) (off : List (String × ℕ)) (rs : ℕ)
    (hr : offsetOf off "rgb" = none) (hi : offsetOf off "intensity" = none) :
    ∀ (fuel row : ℕ) (g g2 : Groups), binLoop le payload off rs fuel row g = some g2 →
      g2.color1 = g.color1 ∧ g2.color2 = g.color2 := by
  intro fuel
  induction fuel with
  | zero =>
    intro row g g2 h
    simp [binLoop] at h
    simp [← h]
  | succ n ih =>
    intro row g g2 h
    simp only [binLoop] at h
    cases hs : step le payload off row g with
    | none => rw [hs] at h; simp at h
    | some gm =>
      rw [hs] at h
      obtain ⟨fl, dp, dr, di, dn, hc, hp, hr2, hi2, -, hgm⟩ :=
        step_some_spec le payload off row g gm hs
      have hdr : dr = [] := by
        have h2 := rgbDelta_noRgb payload off row hr
        rw [hr2] at h2
        exact Option.some.inj h2
      have hdi : di = [] := by
        have h2 := intensityDelta_noIntensity payload off row hi
        rw [hi2] at h2
        exact Option.some.inj h2
      subst hdr hdi
      obtain ⟨e1, e2⟩ := ih (row + rs) gm g2 h
      rw [hgm] at e1 e2
      cases fl <;> simp only [applyDeltas, Bool.false_eq_true, if_false, if_true,
        List.append_nil] at e1 e2 <;> exact ⟨e1, e2⟩

/-! ### Lemmas: truncation for the x/y/z layout, byte-order independence -/

theorem step_xyz_none_iff (le : Bool) (payload : List ℕ) (row : ℕ) (g : Groups) :
    step le payload xyzOff row g = none ↔ payload.length < row + 12 := by
  rw [← Option.not_isSome_iff_eq_none, step_isSome_iff, classify_isSome, posDelta_isSome]
  have hx : offsetOf xyzOff "x" = some 0 := rfl
  have hy : offsetOf xyzOff "y" = some 4 := rfl
  have hz : offsetOf xyzOff "z" = some 8 := rfl
  have hr : offsetOf xyzOff "rgb" = none := rfl
  have hi : offsetOf xyzOff "intensity" = none := rfl
  have hn : offsetOf xyzOff "normal_x" = none := rfl
  simp only [hx, hy, hz, rgbDelta_noRgb payload xyzOff row hr,
    intensityDelta_noIntensity payload xyzOff row hi,
    normalDelta_noNormalX le payload xyzOff row hn, idxOf, Option.isSome_some]
  simp only [true_and, and_true]
  omega

theorem binLoop_xyz_short (le : Bool) (payload : List ℕ) :
    ∀ (fuel row : ℕ) (g : Groups), payload.length < row + (fuel + 1) * 12 →
      binLoop le payload xyzOff 12 (fuel + 1) row g = none := by
  intro fuel
  induction fuel with
  | zero =>
    intro row g h
    have hs : step le payload xyzOff row g = none :=
      (step_xyz_none_iff le payload row g).mpr (by omega)
    simp [binLoop, hs]
  | succ n ih =>
    intro row g h
    cases hs : step le payload xyzOff row g with
    | none => simp [binLoop, hs]
    | some gm =>
      have h2 := ih (row + 12) gm (by omega)
      simp only [binLoop] at h2
      simp only [binLoop, hs]
      exact h2

theorem colorBag_applyDeltas (fl : Bool) (dp : List F32) (dr di : List ℚ) (dn : List F32)
    (g : Groups) : colorBag (applyDeltas fl dp dr di dn g) =
      colorBag g + ((dr : Multiset ℚ) + (di : Multiset ℚ)) := by
  cases fl <;> simp only [applyDeltas, colorBag, Bool.false_eq_true, if_false, if_true,
    ← Multiset.coe_add] <;> abel

/-- The success of one record step does not depend on the byte-order flag
(all reads cover the same byte ranges under either order). -/
theorem step_isSome_congr (le le2 : Bool) (payload : List ℕ) (off : List (String × ℕ))
    (row : ℕ) (g1 g2 : Groups) :
    (step le payload off row g1).isSome ↔ (step le2 payload off row g2).isSome := by
  rw [step_isSome_iff, step_isSome_iff, classify_isSome, classify_isSome,
    posDelta_isSome, posDelta_isSome, normalDelta_isSome, normalDelta_isSome]

/-- One record step under two byte orders, started from groups with equal
color bags: either both fail, or both succeed with equal color bags. -/
theorem step_bag_sync (le le2 : Bool) (payload : List ℕ) (off : List (String × ℕ))
    (row : ℕ) (g1 g2 : Groups) (hb : colorBag g1 = colorBag g2) :
    (step le payload off row g1 = none ∧ step le2 payload off row g2 = none) ∨
      (∃ gm1 gm2, step le payload off row g1 = some gm1 ∧
        step le2 payload off row g2 = some gm2 ∧ colorBag gm1 = colorBag gm2) := by
  cases hs1 : step le payload off row g1 with
  | none =>
    left
    refine ⟨rfl, ?_⟩
    have h2 : ¬(step le2 payload off row g2).isSome := by
      rw [← step_isSome_congr le le2 payload off row g1 g2, hs1]
      simp
    exact Option.not_isSome_iff_eq_none.mp h2
  | some gm1 =>
    right
    have h2s : (step le2 payload off row g2).isSome := by
      rw [← step_isSome_congr le le2 payload off row g1 g2, hs1]
      simp
    obtain ⟨gm2, hs2⟩ := Option.isSome_iff_exists.mp h2s
    refine ⟨gm1, gm2, rfl, hs2, ?_⟩
    obtain ⟨fl1, dp1, dr1, di1, dn1, hc1, hp1, hr1, hi1, hn1, e1⟩ :=
      step_some_spec le payload off row g1 gm1 hs1
    obtain ⟨fl2, dp2, dr2, di2, dn2, hc2, hp2, hr2, hi2, hn2, e2⟩ :=
      step_some_spec le2 payload off row g2 gm2 hs2
    have hdr : dr1 = dr2 := by rw [hr1] at hr2; exact Option.some.inj hr2
    have hdi : di1 = di2 := by rw [hi1] at hi2; exact Option.some.inj hi2
    rw [e1, e2, colorBag_applyDeltas, colorBag_applyDeltas, hb, hdr, hdi]

theorem binLoop_bag_sync (le le2 : Bool) (payload : List ℕ) (off : List (String × ℕ))
    (rs : ℕ) : ∀ (fuel row : ℕ) (g1 g2 : Groups), colorBag g1 = colorBag g2 →
      (binLoop le payload off rs fuel row g1).map colorBag =
        (binLoop le2 payload off rs fuel row g2).map colorBag := by
  intro fuel
  induction fuel with
  | zero => intro row g1 g2 hb; simp [binLoop, hb]
  | succ n ih =>
    intro row g1 g2 hb
    rcases step_bag_sync le le2 payload off row g1 g2 hb with
      ⟨h1, h2⟩ | ⟨gm1, gm2, h1, h2, hbm⟩
    · simp [binLoop, h1, h2]
    · simp only [binLoop, h1, h2]
      exact ih (row + rs) gm1 gm2 hbm

/-- One record step under two byte orders when no x field exists: both
color arrays evolve identically (everything is routed to group 1 and the
color bytes are read without the byte-order flag). -/
theorem step_noX_sync (le le2 : Bool) (payload : List ℕ) (off : List (String × ℕ))
    (row : ℕ) (g1 g2 : Groups) (hx : offsetOf off "x" = none)
    (hc1 : g1.color1 = g2.color1) (hc2 : g1.color2 = g2.color2) :
    (step le payload off row g1 = none ∧ step le2 payload off row g2 = none) ∨
      (∃ gm1 gm2, step le payload off row g1 = some gm1 ∧
        step le2 payload off row g2 = some gm2 ∧
        gm1.color1 = gm2.color1 ∧ gm1.color2 = gm2.color2) := by
  cases hs1 : step le payload off row g1 with
  | none =>
    left
    refine ⟨rfl, ?_⟩
    have h2 : ¬(step le2 payload off row g2).isSome := by
      rw [← step_isSome_congr le le2 payload off row g1 g2, hs1]
      simp
    exact Option.not_isSome_iff_eq_none.mp h2
  | some gm1 =>
    right
    have h2s : (step le2 payload off row g2).isSome := by
      rw [← step_isSome_congr le le2 payload off row g1 g2, hs1]
      simp
    obtain ⟨gm2, hs2⟩ := Option.isSome_iff_exists.mp h2s
    refine ⟨gm1, gm2, rfl, hs2, ?_⟩
    obtain ⟨fl1, dp1, dr1, di1, dn1, hc1s, hp1, hr1, hi1, hn1, e1⟩ :=
      step_some_spec le payload off row g1 gm1 hs1
    obtain ⟨fl2, dp2, dr2, di2, dn2, hc2s, hp2, hr2, hi2, hn2, e2⟩ :=
      step_some_spec le2 payload off row g2 gm2 hs2
    have hfl1 : fl1 = false := by
      have h2 := classify_noX le payload off row hx
      rw [hc1s] at h2
      exact Option.some.inj h2
    have hfl2 : fl2 = false := by
      have h2 := classify_noX le2 payload off row hx
      rw [hc2s] at h2
      exact Option.some.inj h2
    have hdr : dr1 = dr2 := by rw [hr1] at hr2; exact Option.some.inj hr2
    have hdi : di1 = di2 := by rw [hi1] at hi2; exact Option.some.inj hi2
    subst hfl1 hfl2 hdr hdi
    rw [e1, e2]
    simp [applyDeltas, hc1, hc2]

theorem binLoop_noX_sync (le le2 : Bool) (payload : List ℕ) (off : List (String × ℕ))
    (rs : ℕ) (hx : offsetOf off "x" = none) :
    ∀ (fuel row : ℕ) (g1 g2 : Groups), g1.color1 = g2.color1 → g1.color2 = g2.color2 →
      (binLoop le payload off rs fuel row g1).map (fun g => (g.color1, g.color2)) =
        (binLoop le2 payload off rs fuel row g2).map (fun g => (g.color1, g.color2)) := by
  intro fuel
  induction fuel with
  | zero => intro row g1 g2 h1 h2; simp [binLoop, h1, h2]
  | succ n ih =>
    intro row g1 g2 h1 h2
    rcases step_noX_sync le le2 payload off row g1 g2 hx h1 h2 with
      ⟨e1, e2⟩ | ⟨gm1, gm2, e1, e2, em1, em2⟩
    · simp [binLoop, e1, e2]
    · simp only [binLoop, e1, e2]
      exact ih (row + rs) gm1 gm2 em1 em2

/-! ### Header-phase lemmas -/

theorem mkOffsets_snd (fields : List String) :
    ∀ (sizes : List ℕ) (i acc : ℕ), sizes.length = fields.length →
      (mkOffsets false fields sizes i acc).2 = acc + sizes.sum := by
  induction fields with
  | nil =>
    intro sizes i acc h
    rw [List.length_nil, List.length_eq_zero] at h
    subst h
    simp [mkOffsets]
  | cons f fs ih =>
    intro sizes i acc h
    cases sizes with
    | nil => simp at h
    | cons s ss =>
      simp only [mkOffsets, Bool.false_eq_true, if_false, List.tail_cons, List.headD_cons]
      rw [ih ss (i + 1) (acc + s) (by simpa using h), List.sum_cons]
      omega

/-- On a binary header, `parse` is the record loop wrapped in `Except`. -/
theorem parse_binary (le : Bool) (h : PCDHeader) (payload : List ℕ)
    (hd : h.data = "binary") :
    parse le h payload =
      match binLoop le payload h.offset h.rowSize h.points 0 emptyGroups with
      | some g => .ok g
      | none => .error .rangeError := by
  simp [parse, hd]

/-! ### Claims -/

/-- C7: a header that declares WIDTH and HEIGHT but no POINTS line gets
its point count derived as width * height. -/
theorem points_derived_from_width_times_height (raw : RawHeader) (w h : ℕ)
    (hp : raw.points = none) (hw : raw.width = some w) (hh : raw.height = some h) :
    (parseHeader raw).points = w * h := by
  simp [parseHeader, hp, hw, hh]

theorem points_derived_from_width_times_height_witness :
    (parseHeader ⟨"ascii", [], none, none, some 3, some 5, none⟩).points = 3 * 5 :=
  points_derived_from_width_times_height ⟨"ascii", [], none, none, some 3, some 5, none⟩
    3 5 rfl rfl rfl

/-- C8: with no COUNT line, the defaulted count list has one entry per
declared field and every entry is 1. -/
theorem count_defaults_to_ones (raw : RawHeader) (hc : raw.count = none) :
    (parseHeader raw).count.length = raw.fields.length ∧
      ∀ c ∈ (parseHeader raw).count, c = 1 := by
  refine ⟨by simp [parseHeader, hc], ?_⟩
  intro c hd
  simp only [parseHeader, hc] at hd
  exact List.eq_of_mem_replicate hd

theorem count_defaults_to_ones_witness :
    (parseHeader ⟨"ascii", ["x", "y"], none, none, none, none, some 0⟩).count.length =
        (⟨"ascii", ["x", "y"], none, none, none, none, some 0⟩ : RawHeader).fields.length ∧
      ∀ c ∈ (parseHeader ⟨"ascii", ["x", "y"], none, none, none, none, some 0⟩).count, c = 1 :=
  count_defaults_to_ones ⟨"ascii", ["x", "y"], none, none, none, none, some 0⟩ rfl

/-- C3 counterexample: with FIELDS [x], SIZE [4], COUNT [2] the code's
`rowSize` is 4, but the count-weighted sum of sizes claimed by the spec
is 8. -/
theorem rowSize_ignores_count_cex :
    (parseHeader countRaw).count = [2] ∧ (parseHeader countRaw).rowSize = 4 ∧
      List.sum (List.zipWith (fun s c => s * c) [4] [2]) = 8 ∧ (4 : ℕ) ≠ 8 := by
  decide

/-- C3 amended: `rowSize` is the plain (unweighted) sum of the SIZE
entries, and for fields [x, y, z] of size 4 the stride is 12 with offsets
x 0, y 4, z 8. -/
theorem rowSize_eq_plain_sum_of_sizes (raw : RawHeader) (sizes : List ℕ)
    (hs : raw.size = some sizes) (hlen : sizes.length = raw.fields.length)
    (ha : raw.data ≠ "ascii") :
    (parseHeader raw).rowSize = sizes.sum ∧
      (parseHeader (xyzRaw 1)).rowSize = 12 ∧
      offsetOf (parseHeader (xyzRaw 1)).offset "x" = some 0 ∧
      offsetOf (parseHeader (xyzRaw 1)).offset "y" = some 4 ∧
      offsetOf (parseHeader (xyzRaw 1)).offset "z" = some 8 := by
  refine ⟨?_, by decide, by decide, by decide, by decide⟩
  have hd : (decide (raw.data = "ascii")) = false := decide_eq_false ha
  simp only [parseHeader, hs, Option.getD_some]
  rw [hd]
  simpa using mkOffsets_snd raw.fields sizes 0 0 hlen

theorem rowSize_eq_plain_sum_of_sizes_witness :
    (parseHeader (xyzRaw 1)).rowSize = List.sum [4, 4, 4] ∧
      (parseHeader (xyzRaw 1)).rowSize = 12 ∧
      offsetOf (parseHeader (xyzRaw 1)).offset "x" = some 0 ∧
      offsetOf (parseHeader (xyzRaw 1)).offset "y" = some 4 ∧
      offsetOf (parseHeader (xyzRaw 1)).offset "z" = some 8 :=
  rowSize_eq_plain_sum_of_sizes (xyzRaw 1) [4, 4, 4] rfl rfl (by decide)

/-- C4: a header declaring DATA binary_compressed makes `parse` fail with
the unsupported-encoding error and produce no groups. -/
theorem binary_compressed_is_rejected (raw : RawHeader) (payload : List ℕ) (le : Bool)
    (hd : raw.data = "binary_compressed") :
    parse le (parseHeader raw) payload = .error .unsupportedEncoding := by
  have h2 : (parseHeader raw).data = "binary_compressed" := hd
  simp [parse, h2]

theorem binary_compressed_is_rejected_witness :
    parse true (parseHeader ⟨"binary_compressed", ["x"], some [4], none, none, none, some 1⟩)
      [] = .error .unsupportedEncoding :=
  binary_compressed_is_rejected ⟨"binary_compressed", ["x"], some [4], none, none, none,
    some 1⟩ [] true rfl

/-- C1 (code bug in the source): in ascii mode with position fields
declared, the payload loop pushes onto the undeclared identifiers
`position`/`color`/`normal`, so parsing an ascii x/y/z file throws a
ReferenceError instead of producing output groups. -/
theorem ascii_xyz_parse_throws_reference_error :
    parse true (parseHeader asciiXyzRaw) [] = .error .refError := by
  decide

theorem ltq_iff (n : Bool) (m : ℕ) (p : ℤ) (q : ℕ) (hq : 0 < q) :
    F32.ltq (.finite n m) p q = true ↔ f32Val n m < (p : ℚ) / (q : ℚ) := by
  have hq2 : (0 : ℚ) < (q : ℚ) := by exact_mod_cast hq
  cases n with
  | false =>
    simp only [F32.ltq, f32Val, decide_eq_true_eq]
    rw [show (if false then -(m : ℤ) else (m : ℤ)) = (m : ℤ) from rfl,
      show (if false then -(m : ℚ) else (m : ℚ)) = (m : ℚ) from rfl,
      div_lt_div_iff₀ (by positivity) hq2]
    constructor <;> intro h2 <;> exact_mod_cast h2
  | true =>
    simp only [F32.ltq, f32Val, decide_eq_true_eq, if_true]
    rw [div_lt_div_iff₀ (by positivity) hq2]
    constructor <;> intro h2 <;> exact_mod_cast h2

theorem gtq_iff (n : Bool) (m : ℕ) (p : ℤ) (q : ℕ) (hq : 0 < q) :
    F32.gtq (.finite n m) p q = true ↔ (p : ℚ) / (q : ℚ) < f32Val n m := by
  have hq2 : (0 : ℚ) < (q : ℚ) := by exact_mod_cast hq
  cases n with
  | false =>
    simp only [F32.gtq, f32Val, decide_eq_true_eq]
    rw [show (if false then -(m : ℤ) else (m : ℤ)) = (m : ℤ) from rfl,
      show (if false then -(m : ℚ) else (m : ℚ)) = (m : ℚ) from rfl,
      div_lt_div_iff₀ hq2 (by positivity)]
    constructor <;> intro h2 <;> exact_mod_cast h2
  | true =>
    simp only [F32.gtq, f32Val, decide_eq_true_eq, if_true]
    rw [div_lt_div_iff₀ hq2 (by positivity)]
    constructor <;> intro h2 <;> exact_mod_cast h2

/-- C5: classification tests exactly |z| <= 3/10 (so a z at the boundary
is deterministically routed to the floor side), a z = 0.0 record lands in
the near-floor group (group 2), and a z = 5.0 record lands in the
above-floor group (group 1). -/
theorem floor_classification_by_z_threshold :
    (∀ (n : Bool) (m : ℕ), classifyFloor (.finite n m) = decide (|f32Val n m| ≤ 3 / 10)) ∧
      parse true (parseHeader (xyzRaw 1)) zZeroPayload =
        .ok ⟨[], [], [], [f0, f0, f0], [], []⟩ ∧
      parse true (parseHeader (xyzRaw 1)) zFivePayload =
        .ok ⟨[f0, f0, f5], [], [], [], [], []⟩ := by
  refine ⟨?_, by decide, by decide⟩
  intro n m
  have hlt := ltq_iff n m (-3) 10 (by norm_num)
  have hgt := gtq_iff n m 3 10 (by norm_num)
  norm_num at hlt hgt
  simp only [classifyFloor]
  by_cases hv : |f32Val n m| ≤ 3 / 10
  · have hv2 := abs_le.mp hv
    have h1 : F32.ltq (.finite n m) (-3) 10 = false := by
      rw [← Bool.not_eq_true, hlt]
      intro hcon
      linarith [hv2.1]
    have h2 : F32.gtq (.finite n m) 3 10 = false := by
      rw [← Bool.not_eq_true, hgt]
      intro hcon
      linarith [hv2.2]
    simp [h1, h2, hv]
  · rcases lt_abs.mp (not_le.mp hv) with h | h
    · have h2 : F32.gtq (.finite n m) 3 10 = true := hgt.mpr h
      simp [h2, hv]
    · have h1 : F32.ltq (.finite n m) (-3) 10 = true := hlt.mpr (by linarith)
      simp [h1, hv]

theorem floor_classification_by_z_threshold_witness :
    classifyFloor (.finite false 0) = decide (|f32Val false 0| ≤ 3 / 10) :=
  floor_classification_by_z_threshold.1 false 0

/-- C2 counterexample: a binary file whose only field is rgb (no
position) still pushes its color bytes — into the above-floor group — so
the output arrays are not all empty. -/
theorem no_position_record_still_contributes_colors :
    parse true (parseHeader rgbRaw) c2Payload =
      .ok ⟨[], [], [((10 : ℕ) : ℚ) / 255, ((20 : ℕ) : ℚ) / 255, ((30 : ℕ) : ℚ) / 255],
        [], [], []⟩ ∧
      ((⟨[], [], [((10 : ℕ) : ℚ) / 255, ((20 : ℕ) : ℚ) / 255, ((30 : ℕ) : ℚ) / 255],
        [], [], []⟩ : Groups).color1 ≠ []) := by
  exact ⟨rfl, by simp⟩

/-- C2 amended: a record stream lacking a position field contributes no
positions at all, and since `isFloor` then stays false, nothing ever
reaches the near-floor group: its position/color/normal arrays stay
empty, while color/normal data of such records goes to the above-floor
group. -/
theorem no_position_binary_keeps_floor_group_empty (raw : RawHeader) (payload : List ℕ)
    (le : Bool) (g : Groups) (hd : raw.data = "binary")
    (hx : offsetOf (parseHeader raw).offset "x" = none)
    (h : parse le (parseHeader raw) payload = .ok g) :
    g.position1 = [] ∧ g.position2 = [] ∧ g.color2 = [] ∧ g.normal2 = [] := by
  rw [parse_binary le (parseHeader raw) payload hd] at h
  cases hb : binLoop le payload (parseHeader raw).offset (parseHeader raw).rowSize
      (parseHeader raw).points 0 emptyGroups with
  | none => rw [hb] at h; simp at h
  | some gm =>
    rw [hb] at h
    obtain rfl : gm = g := by simpa using h
    have h2 := binLoop_noX le payload (parseHeader raw).offset (parseHeader raw).rowSize hx
      (parseHeader raw).points 0 emptyGroups gm hb
    simpa [emptyGroups] using h2

theorem no_position_binary_keeps_floor_group_empty_witness :
    (⟨[], [], [((10 : ℕ) : ℚ) / 255, ((20 : ℕ) : ℚ) / 255, ((30 : ℕ) : ℚ) / 255],
      [], [], []⟩ : Groups).position1 = [] ∧
    (⟨[], [], [((10 : ℕ) : ℚ) / 255, ((20 : ℕ) : ℚ) / 255, ((30 : ℕ) : ℚ) / 255],
      [], [], []⟩ : Groups).position2 = [] ∧
    (⟨[], [], [((10 : ℕ) : ℚ) / 255, ((20 : ℕ) : ℚ) / 255, ((30 : ℕ) : ℚ) / 255],
      [], [], []⟩ : Groups).color2 = [] ∧
    (⟨[], [], [((10 : ℕ) : ℚ) / 255, ((20 : ℕ) : ℚ) / 255, ((30 : ℕ) : ℚ) / 255],
      [], [], []⟩ : Groups).normal2 = [] :=
  no_position_binary_keeps_floor_group_empty rgbRaw c2Payload true
    ⟨[], [], [((10 : ℕ) : ℚ) / 255, ((20 : ℕ) : ℚ) / 255, ((30 : ℕ) : ℚ) / 255],
      [], [], []⟩ rfl rfl (by rfl)

/-- C6 counterexample: a binary header with one declared field that the
decoder never reads ("dummy", size 4, 2 points) accepts an empty payload
(far fewer than pointCount * recordStride = 8 bytes) and silently returns
empty groups instead of a decode error. -/
theorem truncated_payload_can_parse_silently :
    parse true (parseHeader dummyRaw) [] = .ok emptyGroups ∧
      (List.length ([] : List ℕ) <
        (parseHeader dummyRaw).points * (parseHeader dummyRaw).rowSize) := by
  decide

/-- C6 amended: every `DataView` read is bounds-checked, so a truncated
payload makes `parse` fail with a RangeError whenever a read would go out
of bounds; in particular, for the x/y/z layout (whose reads cover the
whole stride) any payload shorter than pointCount * 12 is rejected.
Truncation confined to declared-but-never-read fields parses without
error (see the counterexample). -/
theorem truncated_xyz_payload_errors (le : Bool) (pts : ℕ) (payload : List ℕ)
    (h1 : 1 ≤ pts) (h2 : payload.length < pts * 12) :
    parse le (parseHeader (xyzRaw pts)) payload = .error .rangeError := by
  have hoff : (parseHeader (xyzRaw pts)).offset = xyzOff := rfl
  have hrow : (parseHeader (xyzRaw pts)).rowSize = 12 := rfl
  have hpts : (parseHeader (xyzRaw pts)).points = pts := rfl
  rw [parse_binary le (parseHeader (xyzRaw pts)) payload rfl, hoff, hrow, hpts]
  obtain ⟨n, rfl⟩ : ∃ n, pts = n + 1 := ⟨pts - 1, by omega⟩
  rw [binLoop_xyz_short le payload n 0 emptyGroups (by omega)]

theorem truncated_xyz_payload_errors_witness :
    parse true (parseHeader (xyzRaw 1)) [] = .error .rangeError :=
  truncated_xyz_payload_errors true 1 [] (by decide) (by decide)

/-- C9: after any successful parse, all six output arrays have lengths
divisible by 3; attributes absent from the header leave their arrays
empty (not null-filled); and a group with no color data never requests
vertex colors. -/
theorem output_arrays_triple_aligned (le : Bool) (h : PCDHeader) (payload : List ℕ)
    (g : Groups) (hp : parse le h payload = .ok g) :
    mod3 g ∧
      (offsetOf h.offset "x" = none → g.position1 = [] ∧ g.position2 = []) ∧
      (offsetOf h.offset "normal_x" = none → g.normal1 = [] ∧ g.normal2 = []) ∧
      (offsetOf h.offset "rgb" = none → offsetOf h.offset "intensity" = none →
        g.color1 = [] ∧ g.color2 = []) ∧
      (g.color1 = [] → vertexColors g.color1 = false) ∧
      (g.color2 = [] → vertexColors g.color2 = false) := by
  have hempty : mod3 emptyGroups ∧
      (emptyGroups.position1 = [] ∧ emptyGroups.position2 = []) ∧
      (emptyGroups.normal1 = [] ∧ emptyGroups.normal2 = []) ∧
      (emptyGroups.color1 = [] ∧ emptyGroups.color2 = []) := by
    refine ⟨?_, ⟨rfl, rfl⟩, ⟨rfl, rfl⟩, rfl, rfl⟩
    simp [mod3, emptyGroups]
  have hvc : ∀ c : List ℚ, c = [] → vertexColors c = false := by
    intro c hc
    rw [hc]
    rfl
  unfold parse at hp
  by_cases hd1 : h.data = "ascii"
  · rw [if_pos hd1] at hp
    cases hcb : ((offsetOf h.offset "x").isSome || (offsetOf h.offset "rgb").isSome
        || (offsetOf h.offset "normal_x").isSome) with
    | true => rw [hcb] at hp; simp at hp
    | false =>
      rw [hcb] at hp
      simp only [Bool.false_eq_true, if_false] at hp
      obtain rfl : emptyGroups = g := by simpa using hp
      exact ⟨hempty.1, fun _ => hempty.2.1, fun _ => hempty.2.2.1,
        fun _ _ => hempty.2.2.2, hvc _, hvc _⟩
  · rw [if_neg hd1] at hp
    by_cases hd2 : h.data = "binary_compressed"
    · rw [if_pos hd2] at hp
      simp at hp
    · rw [if_neg hd2] at hp
      by_cases hd3 : h.data = "binary"
      · rw [if_pos hd3] at hp
        cases hb : binLoop le payload h.offset h.rowSize h.points 0 emptyGroups with
        | none => rw [hb] at hp; simp at hp
        | some gm =>
          rw [hb] at hp
          obtain rfl : gm = g := by simpa using hp
          refine ⟨binLoop_mod3 le payload h.offset h.rowSize h.points 0 emptyGroups gm hb
            hempty.1, ?_, ?_, ?_, hvc _, hvc _⟩
          · intro hx
            have h2 := binLoop_noX le payload h.offset h.rowSize hx h.points 0
              emptyGroups gm hb
            exact ⟨h2.1, h2.2.1⟩
          · intro hn
            exact binLoop_noNormal le payload h.offset h.rowSize hn h.points 0
              emptyGroups gm hb
          · intro hr hi
            exact binLoop_noColor le payload h.offset h.rowSize hr hi h.points 0
              emptyGroups gm hb
      · rw [if_neg hd3] at hp
        obtain rfl : emptyGroups = g := by simpa using hp
        exact ⟨hempty.1, fun _ => hempty.2.1, fun _ => hempty.2.2.1,
          fun _ _ => hempty.2.2.2, hvc _, hvc _⟩

theorem output_arrays_triple_aligned_witness :
    mod3 (⟨[], [], [], [f0, f0, f0], [], []⟩ : Groups) ∧
      (offsetOf (parseHeader (xyzRaw 1)).offset "x" = none →
        (⟨[], [], [], [f0, f0, f0], [], []⟩ : Groups).position1 = [] ∧
          (⟨[], [], [], [f0, f0, f0], [], []⟩ : Groups).position2 = []) ∧
      (offsetOf (parseHeader (xyzRaw 1)).offset "normal_x" = none →
        (⟨[], [], [], [f0, f0, f0], [], []⟩ : Groups).normal1 = [] ∧
          (⟨[], [], [], [f0, f0, f0], [], []⟩ : Groups).normal2 = []) ∧
      (offsetOf (parseHeader (xyzRaw 1)).offset "rgb" = none →
        offsetOf (parseHeader (xyzRaw 1)).offset "intensity" = none →
        (⟨[], [], [], [f0, f0, f0], [], []⟩ : Groups).color1 = [] ∧
          (⟨[], [], [], [f0, f0, f0], [], []⟩ : Groups).color2 = []) ∧
      ((⟨[], [], [], [f0, f0, f0], [], []⟩ : Groups).color1 = [] →
        vertexColors (⟨[], [], [], [f0, f0, f0], [], []⟩ : Groups).color1 = false) ∧
      ((⟨[], [], [], [f0, f0, f0], [], []⟩ : Groups).color2 = [] →
        vertexColors (⟨[], [], [], [f0, f0, f0], [], []⟩ : Groups).color2 = false) :=
  output_arrays_triple_aligned true (parseHeader (xyzRaw 1)) zZeroPayload
    ⟨[], [], [], [f0, f0, f0], [], []⟩ (by decide)

/-- C10 counterexample: with x/y/z/rgb fields and a z value whose bytes
decode to 5.0 little-endian but to a tiny subnormal big-endian, the
classification flips between the two byte orders, so the record's rgb
triple lands in different groups and the two runs' group-1 color arrays
differ. -/
theorem byte_order_changes_color_routing :
    (parse true (parseHeader xyzrgbRaw) c10Payload).map (fun g => g.color1.length) ≠
      (parse false (parseHeader xyzrgbRaw) c10Payload).map (fun g => g.color1.length) := by
  decide

/-- C10 amended: the color bytes are read at fixed positions without the
byte-order flag, so across the two byte orders a parse fails identically
and yields the same combined multiset of color values; only the grouping
can change, because the z classification reads a float.  When no x field
is declared (no classification read), the two groups' color arrays are
identical across the two runs. -/
theorem color_bytes_independent_of_byte_order (h : PCDHeader) (payload : List ℕ)
    (hd : h.data = "binary") :
    (parse true h payload).map colorBag = (parse false h payload).map colorBag ∧
      (offsetOf h.offset "x" = none →
        (parse true h payload).map (fun g => (g.color1, g.color2)) =
          (parse false h payload).map (fun g => (g.color1, g.color2))) := by
  rw [parse_binary true h payload hd, parse_binary false h payload hd]
  constructor
  · have hsync := binLoop_bag_sync true false payload h.offset h.rowSize h.points 0
      emptyGroups emptyGroups rfl
    cases hb1 : binLoop true payload h.offset h.rowSize h.points 0 emptyGroups with
    | none =>
      cases hb2 : binLoop false payload h.offset h.rowSize h.points 0 emptyGroups with
      | none => rfl
      | some g2 => rw [hb1, hb2] at hsync; simp at hsync
    | some g1 =>
      cases hb2 : binLoop false payload h.offset h.rowSize h.points 0 emptyGroups with
      | none => rw [hb1, hb2] at hsync; simp at hsync
      | some g2 =>
        rw [hb1, hb2] at hsync
        have hcb : colorBag g1 = colorBag g2 := Option.some.inj hsync
        simp [Except.map, hcb]
  · intro hx
    have hsync := binLoop_noX_sync true false payload h.offset h.rowSize hx h.points 0
      emptyGroups emptyGroups rfl rfl
    cases hb1 : binLoop true payload h.offset h.rowSize h.points 0 emptyGroups with
    | none =>
      cases hb2 : binLoop false payload h.offset h.rowSize h.points 0 emptyGroups with
      | none => rfl
      | some g2 => rw [hb1, hb2] at hsync; simp at hsync
    | some g1 =>
      cases hb2 : binLoop false payload h.offset h.rowSize h.points 0 emptyGroups with
      | none => rw [hb1, hb2] at hsync; simp at hsync
      | some g2 =>
        rw [hb1, hb2] at hsync
        have hpair := Option.some.inj hsync
        simp only [Except.map]
        rw [show g1.color1 = g2.color1 from congrArg Prod.fst hpair,
          show g1.color2 = g2.color2 from congrArg Prod.snd hpair]

theorem color_bytes_independent_of_byte_order_witness :
    (parse true (parseHeader (xyzRaw 1)) zZeroPayload).map colorBag =
        (parse false (parseHeader (xyzRaw 1)) zZeroPayload).map colorBag ∧
      (offsetOf (parseHeader (xyzRaw 1)).offset "x" = none →
        (parse true (parseHeader (xyzRaw 1)) zZeroPayload).map
            (fun g => (g.color1, g.color2)) =
          (parse false (parseHeader (xyzRaw 1)) zZeroPayload).map
            (fun g => (g.color1, g.color2))) :=
  color_bytes_independent_of_byte_order (parseHeader (xyzRaw 1)) zZeroPayload rfl

end PCD
